import Mathlib

/-!
Verification of the search driver of the or-tools finite-domain constraint
programming solver, shallow embedding of `constraint_solver/search.cc`.

Modelling conventions:
- C++ `int64` values are embedded as `Int`; the named bounds `kint64max` and
  `kint64min` are the exact two-complement bounds.  Arithmetic is exact
  (the modelled code paths do not rely on wrap-around).
- C++ `double` computations (GLS utilities, the tabu factor, the annealing
  temperature) are embedded as exact rationals `ℚ`; every concrete value used
  in a theorem below is exactly representable as a double, so the rational
  semantics coincides with the double semantics there.  The C++ conversion
  `(int64)d` truncates toward zero, embedded as `ratTrunc`.
- Stateful monitor classes become structures with one Lean function per
  member function; constraint postings become values of explicit inductive
  syntax types, so that what a hook posts can be inspected.
-/

/-- kint64max, the largest int64 value. -/
def kint64max : Int := 2 ^ 63 - 1

/-- kint64min, the smallest int64 value. -/
def kint64min : Int := -(2 ^ 63)

/-- C++ conversion of a real value to int64 truncates toward zero. -/
def ratTrunc (q : ℚ) : Int := if 0 ≤ q then Int.floor q else Int.ceil q

/-! ### Luby sequence (`NextLuby`, search.cc:3411-3426) -/

/-- The `power` loop of `NextLuby`: starting from `power`, double until
`power < target` fails, returning the final `power`.  The fuel argument makes
the recursion structural; `lubyPower` supplies enough fuel. -/
def lubyPowerF : Nat → Nat → Nat → Nat
  | 0, power, _ => power
  | fuel + 1, power, target =>
      if power < target then lubyPowerF fuel (2 * power) target else power

/-- `power = 2; while (power < (i + 1)) power <<= 1;` with `target = i + 1`. -/
def lubyPower (target : Nat) : Nat := lubyPowerF target 2 target

/-- `NextLuby(i)` (search.cc:3411): find the least power of two `≥ i + 1`;
if it equals `i + 1` return half of it, else recurse on
`i - power / 2 + 1`.  Fueled to make the recursion structural; the fuel `i`
is sufficient because the recursive argument strictly decreases. -/
def nextLubyF : Nat → Nat → Nat
  | 0, _ => 1
  | fuel + 1, i =>
      let power := lubyPower (i + 1)
      if power = i + 1 then power / 2
      else nextLubyF fuel (i - power / 2 + 1)

/-- `NextLuby(i)` for `i ≥ 1` (the source DCHECKs `i > 0`). -/
def nextLuby (i : Nat) : Nat := nextLubyF i i

/-! ### LubyRestart (search.cc:3429-3457) -/

/-- State of the `LubyRestart` monitor. -/
structure LubyRestart where
  scale_factor : Nat
  iteration : Nat
  current_fails : Nat
  next_step : Nat
deriving DecidableEq, Repr

/-- The `LubyRestart` constructor: iteration 1, no failures yet, first
threshold equal to the scale factor. -/
def LubyRestart.init (scale : Nat) : LubyRestart :=
  ⟨scale, 1, 0, scale⟩

/-- `LubyRestart::BeginFail` (search.cc:3441): increment the failure counter;
when it reaches the threshold, reset it, advance the Luby iteration, set the
next threshold to `NextLuby(++iteration) * scale_factor` and request a restart
(the returned boolean). -/
def LubyRestart.beginFail (s : LubyRestart) : Bool × LubyRestart :=
  if s.current_fails + 1 ≥ s.next_step then
    (true, ⟨s.scale_factor, s.iteration + 1, 0,
            nextLuby (s.iteration + 1) * s.scale_factor⟩)
  else
    (false, ⟨s.scale_factor, s.iteration, s.current_fails + 1, s.next_step⟩)

/-- State of the monitor after `n` `BeginFail` events since `EnterSearch`. -/
def lubyStateAfter (scale : Nat) : Nat → LubyRestart
  | 0 => LubyRestart.init scale
  | n + 1 => ((lubyStateAfter scale n).beginFail).2

/-- Whether the `n`-th `BeginFail` event (1-based) requests a restart. -/
def lubyRestartTriggers (scale n : Nat) : Bool :=
  ((lubyStateAfter scale (n - 1)).beginFail).1

/-- `lubySum k = Σ_{i=1..k} Luby(i)`, the cumulative Luby schedule. -/
def lubySum : Nat → Nat
  | 0 => 0
  | k + 1 => lubySum k + nextLuby (k + 1)

/-! ### RegularLimit (search.cc:3112-3241) -/

/-- The solver counters consumed by `RegularLimit` (engine boundary). -/
structure SolverCounters where
  wall_time : Int
  branches : Int
  failures : Int
  solutions : Int
deriving DecidableEq, Repr

/-- State of a `RegularLimit` monitor: the four budgets, the offsets recorded
at `EnterSearch`, and the amortized time-check bookkeeping. -/
structure RegularLimit where
  wall_time : Int
  wall_time_offset : Int
  check_count : Int
  next_check : Int
  smart_time_check : Bool
  branches : Int
  branches_offset : Int
  failures : Int
  failures_offset : Int
  solutions : Int
  solutions_offset : Int
deriving DecidableEq, Repr

/-- `RegularLimit::Init` (search.cc:3195), called from `EnterSearch`: record
the current counters as offsets and reset the time-check bookkeeping. -/
def RegularLimit.init (l : RegularLimit) (s : SolverCounters) : RegularLimit :=
  { l with branches_offset := s.branches, failures_offset := s.failures,
           wall_time_offset := s.wall_time, check_count := 0, next_check := 0,
           solutions_offset := s.solutions }

/-- `RegularLimit::CheckTime` (search.cc:3224): bump the check counter; if the
time budget is finite and the poll is due, optionally update the amortized
skip (with `kMaxSkip = 100` after `kCheckWarmupIterations = 100` warmup calls,
int64 division truncating toward zero) and report whether the elapsed time
strictly exceeds the budget.  Returns the result and the mutated state. -/
def RegularLimit.checkTime (l : RegularLimit) (s : SolverCounters) :
    Bool × RegularLimit :=
  let l1 := { l with check_count := l.check_count + 1 }
  if l1.wall_time ≠ kint64max ∧ l1.next_check ≤ l1.check_count then
    let time_delta := s.wall_time - l1.wall_time_offset
    let l2 :=
      if l1.smart_time_check = true ∧ 100 < l1.check_count ∧ 0 < time_delta then
        { l1 with next_check :=
            l1.check_count + min 100 ((l1.wall_time * l1.check_count).tdiv time_delta) }
      else l1
    (decide (l2.wall_time < time_delta), l2)
  else (false, l1)

/-- `RegularLimit::Check` (search.cc:3186): branches strictly over budget, or
failures strictly over budget, or the time check fires, or solutions since the
offset have reached (`>=`) the solution budget.  The `||` chain of the source
short-circuits, so `CheckTime`'s mutation only happens when the first two
tests fail; the state is threaded accordingly. -/
def RegularLimit.check (l : RegularLimit) (s : SolverCounters) :
    Bool × RegularLimit :=
  if l.branches < s.branches - l.branches_offset then (true, l)
  else if l.failures < s.failures - l.failures_offset then (true, l)
  else
    let ct := l.checkTime s
    if ct.1 then (true, ct.2)
    else (decide (l.solutions ≤ s.solutions - l.solutions_offset), ct.2)

/-! ### OptimizeVar (search.cc:1962-2012) -/

/-- State of an `OptimizeVar` monitor. -/
structure OptimizeVar where
  maximize : Bool
  step : Int
  best : Int
deriving DecidableEq, Repr

/-- A domain-bounding operation posted on the objective variable. -/
inductive PostedBound where
  | setMin : Int → PostedBound
  | setMax : Int → PostedBound
deriving DecidableEq, Repr

/-- `OptimizeVar::EnterSearch` (search.cc:1970): reset `best_` to the worst
side of the objective direction. -/
def OptimizeVar.enterSearch (o : OptimizeVar) : OptimizeVar :=
  { o with best := if o.maximize then kint64min else kint64max }

/-- `OptimizeVar::ApplyBound` (search.cc:1982): post
`objective ≥ best + step` when maximizing, `objective ≤ best - step` when
minimizing. -/
def OptimizeVar.applyBound (o : OptimizeVar) : PostedBound :=
  if o.maximize then PostedBound.setMin (o.best + o.step)
  else PostedBound.setMax (o.best - o.step)

/-- `OptimizeVar::RefuteDecision` (search.cc:1990) calls `ApplyBound`;
the state is unchanged and the returned list is what gets posted. -/
def OptimizeVar.refuteDecision (o : OptimizeVar) : OptimizeVar × List PostedBound :=
  (o, [o.applyBound])

/-- `OptimizeVar::RestartSearch` (search.cc:1978) calls `ApplyBound`. -/
def OptimizeVar.restartSearch (o : OptimizeVar) : OptimizeVar × List PostedBound :=
  (o, [o.applyBound])

/-- `OptimizeVar::AtSolution` (search.cc:2002): assert strict improvement of
the objective value `val` over `best_` (a CHECK in the source) and record it. -/
def OptimizeVar.atSolution (o : OptimizeVar) (val : Int) : OptimizeVar :=
  { o with best := val }

/-- `OptimizeVar::AcceptSolution` (search.cc:1994): vote to accept the
solution exactly when the objective value strictly improves `best_`. -/
def OptimizeVar.acceptSolution (o : OptimizeVar) (val : Int) : Bool :=
  (o.maximize && decide (o.best < val)) || (!o.maximize && decide (val < o.best))

/-- Modelled from the spec: the driver broadcast of `AcceptSolution` folds the
monitor votes with AND (spec section 4.7); the driver loop itself is not part
of the sources under verification. -/
def acceptSolutionFold (votes : List Bool) : Bool := votes.all (fun b => b)

/-! ### Solution collectors (search.cc:1669-1958) -/

/-- A stored solution snapshot (the values captured by `Assignment::Store`). -/
abbrev AssignmentSnap := List Int

/-- State of the base `SolutionCollector`: the captured solutions (a `none`
entry is the NULL stored when no prototype was given), the recycled slots and
the per-solution statistics.  `prototype` abstracts whether the collector was
built with a prototype assignment. -/
structure SolutionCollector where
  prototype : Bool
  solutions : List (Option AssignmentSnap)
  recycle_solutions : List AssignmentSnap
  times : List Int
  branches : List Int
  failures : List Int
  objective_values : List Int
deriving DecidableEq, Repr

/-- `SolutionCollector::EnterSearch` (search.cc:1677): delete and clear every
stored solution, every recycled slot, and all per-solution statistics. -/
def SolutionCollector.enterSearch (c : SolutionCollector) : SolutionCollector :=
  { c with solutions := [], recycle_solutions := [], times := [],
           branches := [], failures := [], objective_values := [] }

/-- `SolutionCollector::PushSolution` (search.cc:1688): when a prototype
exists, reuse a recycled slot if any (then `Store()` overwrites it with the
current assignment `current`) else allocate; push the snapshot and the current
statistics; the pushed objective value is the stored assignment objective, or
0 when there is no prototype. -/
def SolutionCollector.pushSolution (c : SolutionCollector) (current : AssignmentSnap)
    (objVal wallTime nbranches nfailures : Int) : SolutionCollector :=
  if c.prototype then
    { c with solutions := c.solutions ++ [some current],
             recycle_solutions := c.recycle_solutions.tail,
             times := c.times ++ [wallTime],
             branches := c.branches ++ [nbranches],
             failures := c.failures ++ [nfailures],
             objective_values := c.objective_values ++ [objVal] }
  else
    { c with solutions := c.solutions ++ [none],
             times := c.times ++ [wallTime],
             branches := c.branches ++ [nbranches],
             failures := c.failures ++ [nfailures],
             objective_values := c.objective_values ++ [0] }

/-- `SolutionCollector::solution_count` (search.cc:1736). -/
def SolutionCollector.solution_count (c : SolutionCollector) : Nat :=
  c.solutions.length

/-- State of `FirstSolutionCollector`: the base collector plus the one-shot
capture flag `done_`. -/
structure FirstSolutionCollector where
  base : SolutionCollector
  done : Bool
deriving DecidableEq, Repr

/-- `FirstSolutionCollector::EnterSearch` (search.cc:1806): reset the base
collector and re-arm the one-shot flag. -/
def FirstSolutionCollector.enterSearch (c : FirstSolutionCollector) :
    FirstSolutionCollector :=
  ⟨c.base.enterSearch, false⟩

/-- `FirstSolutionCollector::AtSolution` (search.cc:1811): capture only while
`done_` is unset, then trip the flag; always vote `false` (no continuation). -/
def FirstSolutionCollector.atSolution (c : FirstSolutionCollector)
    (current : AssignmentSnap) (objVal wallTime nbranches nfailures : Int) :
    Bool × FirstSolutionCollector :=
  if c.done = false then
    (false, ⟨c.base.pushSolution current objVal wallTime nbranches nfailures, true⟩)
  else (false, c)

/-- State of `BestValueSolutionCollector`: base collector, direction, and
incumbent objective value. -/
structure BestValueSolutionCollector where
  base : SolutionCollector
  maximize : Bool
  best : Int
deriving DecidableEq, Repr

/-- `BestValueSolutionCollector::EnterSearch` (search.cc:1891): reset the base
collector and reset the incumbent to the worst side. -/
def BestValueSolutionCollector.enterSearch (c : BestValueSolutionCollector) :
    BestValueSolutionCollector :=
  ⟨c.base.enterSearch, c.maximize, if c.maximize then kint64min else kint64max⟩

/-! ### SimulatedAnnealing (search.cc:2316-2410) -/

/-- State of the `SimulatedAnnealing` metaheuristic (the `Metaheuristic` base
fields plus the initial temperature and the iteration counter). -/
structure SimulatedAnnealing where
  maximize : Bool
  step : Int
  current : Int
  best : Int
  temperature0 : Int
  iteration : Int
deriving DecidableEq, Repr

/-- Constructor state: `Metaheuristic` initializes `current_` and `best_` to
`kint64max`; `iteration_` starts at 0 (search.cc:2340-2348). -/
def SimulatedAnnealing.init (maximize : Bool) (step temperature0 : Int) :
    SimulatedAnnealing :=
  ⟨maximize, step, kint64max, kint64max, temperature0, 0⟩

/-- `SimulatedAnnealing::Temperature` (search.cc:2404): `T0 / iteration` when
the iteration counter is positive, else 0 (Cauchy annealing; the float
computation is embedded exactly as a rational). -/
def SimulatedAnnealing.temperature (s : SimulatedAnnealing) : ℚ :=
  if 0 < s.iteration then (s.temperature0 : ℚ) / (s.iteration : ℚ) else 0

/-- `SimulatedAnnealing::LocalOptimum` (search.cc:2388): reset `current_` to
the worst side, advance the iteration counter, and return whether the
temperature after the advance is positive. -/
def SimulatedAnnealing.localOptimum (s : SimulatedAnnealing) :
    Bool × SimulatedAnnealing :=
  let s1 := { s with current := if s.maximize then kint64min else kint64max,
                     iteration := s.iteration + 1 }
  (decide (0 < s1.temperature), s1)

/-- `SimulatedAnnealing::AcceptNeighbor` (search.cc:2398): increment the
iteration counter only when it is already nonzero. -/
def SimulatedAnnealing.acceptNeighbor (s : SimulatedAnnealing) :
    SimulatedAnnealing :=
  if 0 < s.iteration then { s with iteration := s.iteration + 1 } else s

/-- The two events relevant to the iteration counter. -/
inductive SAEvent where
  | localOptimum
  | acceptNeighbor
deriving DecidableEq, Repr

/-- Process a sequence of events through the monitor. -/
def saRun : SimulatedAnnealing → List SAEvent → SimulatedAnnealing
  | s, [] => s
  | s, SAEvent.localOptimum :: rest => saRun s.localOptimum.2 rest
  | s, SAEvent.acceptNeighbor :: rest => saRun s.acceptNeighbor rest

/-- The iteration count the code actually realizes on a trace: 0 before the
first `LocalOptimum`; from the first `LocalOptimum` on, every event (both
kinds) increments, so the count is 1 plus the number of later events. -/
def saSpecIteration : List SAEvent → Nat
  | [] => 0
  | SAEvent.localOptimum :: rest => 1 + rest.length
  | SAEvent.acceptNeighbor :: rest => saSpecIteration rest

/-! ### GuidedLocalSearch penalties (search.cc:2425-2786) -/

/-- An arc is a (variable index, value) pair. -/
abbrev Arc := Nat × Int

/-- The data `GuidedLocalSearch::LocalOptimum` reads: the number of tracked
variables, the stored assignment value of each, and the abstract
`AssignmentPenalty(assignment, i, value)` cost callback (binary form runs
`objective_function(i, value)`, ternary form also reads the secondary
variable; both are opaque int64 evaluations here). -/
structure GLSConfig where
  size : Nat
  assignValue : Nat → Int
  assignmentPenalty : Nat → Int → Int
  maximize : Bool

/-- The per-index utility list built by `GuidedLocalSearch::LocalOptimum`
(search.cc:2762-2770): for index `i` with stored value `v`,
`cost = AssignmentPenalty(i, v)` if `v ≠ i` else 0, and
`utility = cost / (penalty(i, v) + 1.0)` (exact rational embedding of the
double division). -/
def glsUtilityList (c : GLSConfig) (pen : Arc → Int) : List (Arc × ℚ) :=
  (List.range c.size).map fun i =>
    let var_value := c.assignValue i
    let value : Int := if var_value ≠ (i : Int) then c.assignmentPenalty i var_value else 0
    let arc : Arc := (i, var_value)
    (arc, (value : ℚ) / ((pen arc : ℚ) + 1))

/-- Insertion into a descending-sorted list (stable on ties).  This realizes
one possible output of `std::sort` with the strict `>` comparator of
`GuidedLocalSearch::Comparator` (search.cc:2553). -/
def insertDesc (p : Arc × ℚ) : List (Arc × ℚ) → List (Arc × ℚ)
  | [] => [p]
  | q :: rest => if p.2 > q.2 then p :: q :: rest else q :: insertDesc p rest

/-- Descending sort by utility. -/
def sortDesc : List (Arc × ℚ) → List (Arc × ℚ)
  | [] => []
  | p :: rest => insertDesc p (sortDesc rest)

/-- The arcs incremented by `GuidedLocalSearch::LocalOptimum`
(search.cc:2771-2779): after sorting by descending utility, the first arc is
always incremented; `int64 utility_value = utility[0].second` truncates the
maximal utility to an integer, and the loop keeps incrementing while
`utility_value == utility[i].second` (an int64-to-double comparison, exact in
the rational embedding). -/
def glsIncrementedArcs (utility : List (Arc × ℚ)) : List Arc :=
  match sortDesc utility with
  | [] => []
  | u0 :: rest =>
      let utility_value : Int := ratTrunc u0.2
      u0.1 :: (rest.takeWhile fun p => decide ((utility_value : ℚ) = p.2)).map Prod.fst

/-- The penalty table after `GuidedLocalSearch::LocalOptimum`: each arc in the
incremented list gains 1 (`penalties_->Increment`); the hook also resets
`current_` to the worst side and returns true, which does not affect the
table. -/
def glsLocalOptimum (c : GLSConfig) (pen : Arc → Int) : Arc → Int :=
  let incs := glsIncrementedArcs (glsUtilityList c pen)
  fun a => pen a + (incs.count a : Int)

/-- Concrete GLS instance exhibiting the truncation: two tracked variables,
both assigned value 5 (≠ their index), every assignment cost 5. -/
def glsBugConfig : GLSConfig :=
  { size := 2, assignValue := fun _ => 5, assignmentPenalty := fun _ _ => 5,
    maximize := false }

/-- Penalty table with one existing penalty on each assigned arc, making both
utilities the fractional value 5 / 2. -/
def glsBugPen : Arc → Int := fun a => if a = (0, 5) ∨ a = (1, 5) then 1 else 0

/-! ### TabuSearch (search.cc:2081-2275) -/

/-- A tabu list entry: tracked variable index, value, and stamp. -/
structure TabuVarValue where
  varIdx : Nat
  value : Int
  stamp : Int
deriving DecidableEq, Repr

/-- State of the `TabuSearch` metaheuristic. -/
structure TabuSearch where
  maximize : Bool
  step : Int
  current : Int
  best : Int
  last : Int
  keep_tabu_list : List TabuVarValue
  forbid_tabu_list : List TabuVarValue
  keep_tenure : Int
  forbid_tenure : Int
  tabu_factor : ℚ
  stamp : Int
deriving DecidableEq, Repr

/-- The constraints `TabuSearch::ApplyDecision` posts, as inspectable syntax:
the reified aspiration bound, one reified boolean literal per tabu entry, the
softened threshold over the tabu literals, the aspiration-or-tabu disjunction,
the strict-descent bound, and the plateau exclusion. -/
inductive TabuPosted where
  | aspirationGe : Int → TabuPosted
  | aspirationLe : Int → TabuPosted
  | keepLit : Nat → Int → TabuPosted
  | forbidLit : Nat → Int → TabuPosted
  | tabuThreshold : Nat → Int → TabuPosted
  | orAspirationTabu : TabuPosted
  | descentGe : Int → TabuPosted
  | descentLe : Int → TabuPosted
  | notEqualLast : Int → TabuPosted
deriving DecidableEq, Repr

/-- `TabuSearch::ApplyDecision` (search.cc:2160-2217).  On the balancing
decision nothing is posted.  Otherwise: the aspiration literal
(`objective ≥ best + step` reified when maximizing, `≤ best - step` when
minimizing); an `IsEqualCstCt` literal per keep entry and an
`IsDifferentCstCt` literal per forbid entry; when at least one literal exists,
`Sum(tabu_vars) ≥ tabu_vars.size() * tabu_factor` reified (the double product
implicitly converted to int64, truncating toward zero) and
`aspiration + tabu ≥ 1`; then the strict descent bound from `current_` and
`objective ≠ last_`. -/
def TabuSearch.applyDecision (t : TabuSearch) (balancing : Bool) :
    List TabuPosted :=
  if balancing then [] else
  let aspiration :=
    if t.maximize then TabuPosted.aspirationGe (t.best + t.step)
    else TabuPosted.aspirationLe (t.best - t.step)
  let keepLits := t.keep_tabu_list.map fun e => TabuPosted.keepLit e.varIdx e.value
  let forbidLits := t.forbid_tabu_list.map fun e => TabuPosted.forbidLit e.varIdx e.value
  let n := t.keep_tabu_list.length + t.forbid_tabu_list.length
  let tabuCts : List TabuPosted :=
    if 0 < n then
      [TabuPosted.tabuThreshold n (ratTrunc ((n : ℚ) * t.tabu_factor)),
       TabuPosted.orAspirationTabu]
    else []
  let descent :=
    if t.maximize then TabuPosted.descentGe (t.current + t.step)
    else TabuPosted.descentLe (t.current - t.step)
  [aspiration] ++ keepLits ++ forbidLits ++ tabuCts ++
    [descent, TabuPosted.notEqualLast t.last]

/-- Concrete tabu state with a single keep entry and factor 1 / 2 (exactly
representable as a double). -/
def tabuHalfState : TabuSearch :=
  { maximize := true, step := 1, current := 10, best := 10, last := 10,
    keep_tabu_list := [⟨0, 7, 0⟩], forbid_tabu_list := [],
    keep_tenure := 2, forbid_tenure := 2, tabu_factor := 1 / 2, stamp := 1 }

/-! ### Random value selector (search.cc:785-820) -/

/-- Smallest domain value (`IntVar::Min`); domains are nonempty sorted lists. -/
def domMin (dom : List Int) : Int := dom.head?.getD 0

/-- Largest domain value (`IntVar::Max`). -/
def domMax (dom : List Int) : Int := dom.getLast?.getD 0

/-- The ascending value range `lo..hi` scanned by the first counting loop. -/
def rangeAsc (lo hi : Int) : List Int :=
  (List.range (hi + 1 - lo).toNat).map fun k => lo + (k : Int)

/-- The descending value range `hi..lo+1` scanned by the second counting loop
(the loop condition `i > v->Min()` excludes the minimum). -/
def rangeDesc (lo hi : Int) : List Int :=
  (List.range (hi - lo).toNat).map fun k => hi - (k : Int)

/-- One counting loop of `RandomValueSelector::Select`: for each scanned value
contained in the domain, decrement `index`; return the value at which the
decremented index hits 0.  `none` models falling off the loop. -/
def countLoop (vals : List Int) (dom : List Int) (index : Int) : Option Int :=
  match vals with
  | [] => none
  | i :: rest =>
      if i ∈ dom then
        if index - 1 = 0 then some i else countLoop rest dom (index - 1)
      else countLoop rest dom index

/-- The density test of `RandomValueSelector::Select` (search.cc:789):
`size > span / 4` with int64 division. -/
def randomValueIsDense (dom : List Int) : Bool :=
  decide ((dom.length : Int) > (domMax dom - domMin dom + 1).tdiv 4)

/-- The dense branch (search.cc:791-796): repeatedly draw `min + Rand64(span)`
until the value is contained; the draws are supplied as a stream and `none`
models exhausting it (the source loops forever). -/
def randomValueDense (dom : List Int) : List Int → Option Int
  | [] => none
  | d :: rest =>
      let value := domMin dom + d
      if value ∈ dom then some value else randomValueDense dom rest

/-- The sparse branch (search.cc:797-819) for a drawn rank
`index = Rand64(size)`: count upward from `Min` when `index ≤ size / 2`, else
downward from `Max`; falling off either loop reaches the trailing
`return 0LL`. -/
def randomValueSparse (dom : List Int) (index : Int) : Int :=
  let size : Int := dom.length
  if index ≤ size.tdiv 2 then
    (countLoop (rangeAsc (domMin dom) (domMax dom)) dom index).getD 0
  else
    (countLoop (rangeDesc (domMin dom) (domMax dom)) dom index).getD 0

/-! ### Helper lemmas on the Luby embedding -/

theorem lubyPowerF_le (fuel : Nat) : ∀ p t, p ≤ lubyPowerF fuel p t := by
  induction fuel with
  | zero => intro p t; exact Nat.le_refl p
  | succ fuel ih =>
      intro p t
      simp only [lubyPowerF]
      split
      · exact Nat.le_trans (Nat.le_mul_of_pos_left p (by norm_num)) (ih (2 * p) t)
      · exact Nat.le_refl p

theorem clog_eq_of_between (m t : Nat) (hlt : 2 ^ (m - 1) < t) (hle : t ≤ 2 ^ m) :
    Nat.clog 2 t = m := by
  have h1 : Nat.clog 2 t ≤ m := (Nat.le_pow_iff_clog_le (by norm_num)).1 hle
  rcases Nat.eq_zero_or_pos m with hm | hm
  · subst hm
    simp only [Nat.zero_sub, pow_zero] at hlt hle
    omega
  · have h2 : m ≤ Nat.clog 2 t := by
      by_contra h
      push_neg at h
      have h3 : Nat.clog 2 t ≤ m - 1 := by omega
      have h4 : t ≤ 2 ^ (m - 1) :=
        (Nat.le_pow_iff_clog_le (b := 2) (by norm_num)).2 h3
      omega
    exact Nat.le_antisymm h1 h2

theorem lubyPowerF_clog (fuel : Nat) :
    ∀ m t, 2 ^ (m - 1) < t → t ≤ 2 ^ m * 2 ^ fuel →
      lubyPowerF fuel (2 ^ m) t = 2 ^ Nat.clog 2 t := by
  induction fuel with
  | zero =>
      intro m t hlt hle
      simp only [pow_zero, mul_one] at hle
      simp only [lubyPowerF]
      rw [clog_eq_of_between m t hlt hle]
  | succ fuel ih =>
      intro m t hlt hle
      by_cases h : 2 ^ m < t
      · have h2m : 2 * 2 ^ m = 2 ^ (m + 1) := by ring
        simp only [lubyPowerF, if_pos h, h2m]
        refine ih (m + 1) t (by simpa using h) ?_
        rw [pow_succ] at hle ⊢
        calc t ≤ 2 ^ m * (2 ^ fuel * 2) := hle
          _ = 2 ^ m * 2 * 2 ^ fuel := by ring
      · push_neg at h
        simp only [lubyPowerF, if_neg (not_lt.mpr h)]
        rw [clog_eq_of_between m t hlt h]

theorem lubyPower_eq (t : Nat) (ht : 2 ≤ t) :
    lubyPower t = 2 ^ Nat.clog 2 t := by
  have h1 : (2 : Nat) ^ (1 - 1) < t := by simpa using ht
  have h2 : t ≤ 2 ^ 1 * 2 ^ t := by
    have := Nat.lt_two_pow t
    calc t ≤ 2 ^ t := this.le
      _ ≤ 2 ^ 1 * 2 ^ t := Nat.le_mul_of_pos_left _ (by norm_num)
  simpa [lubyPower] using lubyPowerF_clog t 1 t h1 h2

theorem lubyPower_ge_two (t : Nat) : 2 ≤ lubyPower t :=
  lubyPowerF_le t 2 t

theorem nextLubyF_pos (fuel : Nat) : ∀ i, 1 ≤ nextLubyF fuel i := by
  induction fuel with
  | zero => intro i; simp [nextLubyF]
  | succ fuel ih =>
      intro i
      simp only [nextLubyF]
      split
      · have := lubyPower_ge_two (i + 1)
        omega
      · exact ih _

theorem nextLuby_pos (i : Nat) : 1 ≤ nextLuby i := nextLubyF_pos i i

theorem clog_two_ge_two {t : Nat} (ht : 3 ≤ t) : 2 ≤ Nat.clog 2 t := by
  by_contra h
  push_neg at h
  have h1 : Nat.clog 2 t ≤ 1 := by omega
  have := (Nat.le_pow_iff_clog_le (b := 2) (by norm_num)).2 h1
  omega

theorem nextLubyF_fuel (i : Nat) : ∀ fuel fuel', 1 ≤ i → i ≤ fuel → i ≤ fuel' →
    nextLubyF fuel i = nextLubyF fuel' i := by
  induction i using Nat.strong_induction_on with
  | _ i ihi =>
      intro fuel fuel' h1 h2 h3
      obtain ⟨a, rfl⟩ : ∃ a, fuel = a + 1 := ⟨fuel - 1, by omega⟩
      obtain ⟨b, rfl⟩ : ∃ b, fuel' = b + 1 := ⟨fuel' - 1, by omega⟩
      simp only [nextLubyF]
      split
      · rfl
      · rename_i hne
        -- the else branch forces i ≥ 2, hence power ≥ 4 and the argument drops
        have hi2 : 2 ≤ i := by
          rcases Nat.lt_or_ge i 2 with h | h
          · exfalso
            have : i = 1 := by omega
            subst this
            have : lubyPower 2 = 2 := by decide
            simp [this] at hne
          · exact h
        have hpow : lubyPower (i + 1) = 2 ^ Nat.clog 2 (i + 1) :=
          lubyPower_eq _ (by omega)
        have hclog : 2 ≤ Nat.clog 2 (i + 1) := clog_two_ge_two (by omega)
        have hp4 : 4 ≤ lubyPower (i + 1) := by
          rw [hpow]
          calc (4 : Nat) = 2 ^ 2 := by norm_num
            _ ≤ 2 ^ Nat.clog 2 (i + 1) := Nat.pow_le_pow_right (by norm_num) hclog
        have hhalf : 2 ≤ lubyPower (i + 1) / 2 := by omega
        have hlt : i - lubyPower (i + 1) / 2 + 1 < i := by omega
        exact ihi _ hlt a b (by omega) (by omega) (by omega)

theorem nextLuby_unfold (i : Nat) (h1 : 1 ≤ i)
    (hne : lubyPower (i + 1) ≠ i + 1) :
    nextLuby i = nextLuby (i - lubyPower (i + 1) / 2 + 1) := by
  obtain ⟨a, rfl⟩ : ∃ a, i = a + 1 := ⟨i - 1, by omega⟩
  show nextLubyF (a + 1) (a + 1) = _
  simp only [nextLubyF, if_neg hne]
  have hi2 : 2 ≤ a + 1 := by
    rcases Nat.lt_or_ge (a + 1) 2 with h | h
    · exfalso
      have : a = 0 := by omega
      subst this
      have : lubyPower 2 = 2 := by decide
      simp [this] at hne
    · exact h
  have hpow : lubyPower (a + 1 + 1) = 2 ^ Nat.clog 2 (a + 1 + 1) :=
    lubyPower_eq _ (by omega)
  have hclog : 2 ≤ Nat.clog 2 (a + 1 + 1) := clog_two_ge_two (by omega)
  have hp4 : 4 ≤ lubyPower (a + 1 + 1) := by
    rw [hpow]
    calc (4 : Nat) = 2 ^ 2 := by norm_num
      _ ≤ _ := Nat.pow_le_pow_right (by norm_num) hclog
  exact nextLubyF_fuel _ a _ (by omega) (by omega) (by omega)

theorem two_pow_div_two {k : Nat} (hk : 1 ≤ k) : 2 ^ k / 2 = 2 ^ (k - 1) := by
  conv_lhs => rw [show k = (k - 1) + 1 by omega, pow_succ]
  exact Nat.mul_div_cancel _ (by norm_num)

/-- C5: the `NextLuby` function satisfies the classical Luby recurrence
(with `2 ^ k` the smallest power of two `≥ i + 1`: value `2 ^ (k - 1)` when
`i + 1` is exactly that power, else the value at `i - 2 ^ (k - 1) + 1`), and
evaluating it at 1..16 yields [1,1,2,1,1,2,4,1,1,2,1,1,2,4,8,1]. -/
theorem nextLuby_spec :
    (∀ i k, 1 ≤ i → i + 1 ≤ 2 ^ k → (∀ j, j < k → 2 ^ j < i + 1) →
      (i + 1 = 2 ^ k → nextLuby i = 2 ^ (k - 1)) ∧
      (i + 1 ≠ 2 ^ k → nextLuby i = nextLuby (i - 2 ^ (k - 1) + 1))) ∧
    (List.range 16).map (fun n => nextLuby (n + 1)) =
      [1, 1, 2, 1, 1, 2, 4, 1, 1, 2, 1, 1, 2, 4, 8, 1] := by
  constructor
  · intro i k h1 hk hmin
    have hk1 : 1 ≤ k := by
      by_contra h
      push_neg at h
      have : k = 0 := by omega
      subst this
      simp at hk
      omega
    have hkclog : Nat.clog 2 (i + 1) = k := by
      have hub : Nat.clog 2 (i + 1) ≤ k :=
        (Nat.le_pow_iff_clog_le (by norm_num)).1 hk
      have hlb : k ≤ Nat.clog 2 (i + 1) := by
        by_contra h
        push_neg at h
        have h3 : Nat.clog 2 (i + 1) ≤ k - 1 := by omega
        have h4 : i + 1 ≤ 2 ^ (k - 1) :=
          (Nat.le_pow_iff_clog_le (b := 2) (by norm_num)).2 h3
        have h5 := hmin (k - 1) (by omega)
        omega
      exact Nat.le_antisymm hub hlb
    have hpow : lubyPower (i + 1) = 2 ^ k := by
      rw [lubyPower_eq _ (by omega), hkclog]
    constructor
    · intro heq
      obtain ⟨a, rfl⟩ : ∃ a, i = a + 1 := ⟨i - 1, by omega⟩
      show nextLubyF (a + 1) (a + 1) = 2 ^ (k - 1)
      simp only [nextLubyF, hpow]
      rw [if_pos heq.symm]
      exact two_pow_div_two hk1
    · intro hne
      have hne' : lubyPower (i + 1) ≠ i + 1 := by rw [hpow]; omega
      have hrec := nextLuby_unfold i h1 hne'
      rw [hrec, hpow, two_pow_div_two hk1]
  · decide

/-- Witness for C5: the recurrence applied at i = 3 (power case, k = 2)
evaluates NextLuby(3) to 2. -/
theorem nextLuby_spec_witness : nextLuby 3 = 2 := by
  have h := (nextLuby_spec.1 3 2 (by norm_num) (by norm_num)
    (by decide)).1 (by norm_num)
  simpa using h

/-! ### C6: the LubyRestart schedule -/

theorem lubySum_mul_strictMono {scale : Nat} (hs : 1 ≤ scale) :
    StrictMono fun k => scale * lubySum k := by
  apply strictMono_nat_of_lt_succ
  intro k
  have h1 : 1 ≤ nextLuby (k + 1) := nextLuby_pos _
  have h2 : lubySum (k + 1) = lubySum k + nextLuby (k + 1) := rfl
  have h3 : 1 * 1 ≤ scale * nextLuby (k + 1) := Nat.mul_le_mul hs h1
  simp only [h2, Nat.mul_add]
  omega

theorem lubyRestart_invariant (scale : Nat) (hs : 1 ≤ scale) (n : Nat) :
    ∃ k, scale * lubySum k ≤ n ∧ n < scale * lubySum (k + 1) ∧
      lubyStateAfter scale n =
        ⟨scale, k + 1, n - scale * lubySum k, nextLuby (k + 1) * scale⟩ := by
  induction n with
  | zero =>
      refine ⟨0, Nat.zero_le _, ?_, ?_⟩
      · have h1 : lubySum 1 = 1 := by decide
        simpa [h1] using hs
      · show LubyRestart.init scale = _
        have h1 : nextLuby 1 = 1 := by decide
        simp [LubyRestart.init, lubySum, h1]
  | succ n ih =>
      obtain ⟨k, h1, h2, hstate⟩ := ih
      have hstep : lubyStateAfter scale (n + 1) =
          ((lubyStateAfter scale n).beginFail).2 := rfl
      rw [hstep, hstate]
      have hD : 1 * 1 ≤ scale * nextLuby (k + 1) := Nat.mul_le_mul hs (nextLuby_pos _)
      have hD2 : 1 * 1 ≤ scale * nextLuby (k + 1 + 1) := Nat.mul_le_mul hs (nextLuby_pos _)
      have hC : scale * lubySum (k + 1) = scale * lubySum k + scale * nextLuby (k + 1) := by
        have h : lubySum (k + 1) = lubySum k + nextLuby (k + 1) := rfl
        rw [h, Nat.mul_add]
      have hC2 : scale * lubySum (k + 1 + 1) =
          scale * lubySum (k + 1) + scale * nextLuby (k + 1 + 1) := by
        have h : lubySum (k + 1 + 1) = lubySum (k + 1) + nextLuby (k + 1 + 1) := rfl
        rw [h, Nat.mul_add]
      simp only [LubyRestart.beginFail]
      split
      · -- restart triggered: n + 1 = scale * lubySum (k + 1)
        rename_i hcond
        have hmul : nextLuby (k + 1) * scale = scale * nextLuby (k + 1) :=
          Nat.mul_comm _ _
        rw [hmul] at hcond
        have heq : n + 1 = scale * lubySum (k + 1) := by omega
        refine ⟨k + 1, by omega, by omega, ?_⟩
        have hzero : n + 1 - scale * lubySum (k + 1) = 0 := by omega
        rw [hzero]
      · rename_i hcond
        have hmul : nextLuby (k + 1) * scale = scale * nextLuby (k + 1) :=
          Nat.mul_comm _ _
        rw [hmul] at hcond
        have hne : n + 1 < scale * lubySum (k + 1) := by omega
        refine ⟨k, by omega, hne, ?_⟩
        have hsucc : n + 1 - scale * lubySum k = (n - scale * lubySum k) + 1 := by omega
        rw [hsucc]

/-- C6: with `scale_factor ≥ 1`, counting one failure per `BeginFail` since
`EnterSearch`, the `n`-th `BeginFail` requests `RestartCurrentSearch` exactly
when `n = scale · Σ_{i=1..k} Luby(i)` for some `k ≥ 1`; equivalently the
`k`-th restart happens at cumulative failure count `scale · lubySum k`. -/
theorem lubyRestart_schedule (scale n : Nat) (hs : 1 ≤ scale) (hn : 1 ≤ n) :
    lubyRestartTriggers scale n = true ↔ ∃ k, 1 ≤ k ∧ n = scale * lubySum k := by
  obtain ⟨m, rfl⟩ : ∃ m, n = m + 1 := ⟨n - 1, by omega⟩
  obtain ⟨k, h1, h2, hstate⟩ := lubyRestart_invariant scale hs m
  have hunfold : lubyRestartTriggers scale (m + 1) =
      ((lubyStateAfter scale m).beginFail).1 := rfl
  rw [hunfold, hstate]
  have hC : scale * lubySum (k + 1) = scale * lubySum k + scale * nextLuby (k + 1) := by
    have : lubySum (k + 1) = lubySum k + nextLuby (k + 1) := rfl
    rw [this, Nat.mul_add]
  simp only [LubyRestart.beginFail]
  split
  · rename_i hcond
    have hmul : nextLuby (k + 1) * scale = scale * nextLuby (k + 1) :=
      Nat.mul_comm _ _
    rw [hmul] at hcond
    exact ⟨fun _ => ⟨k + 1, by omega, by omega⟩, fun _ => rfl⟩
  · rename_i hcond
    have hmul : nextLuby (k + 1) * scale = scale * nextLuby (k + 1) :=
      Nat.mul_comm _ _
    rw [hmul] at hcond
    constructor
    · intro h
      simp at h
    · rintro ⟨k', hk', heq⟩
      exfalso
      have hmono := lubySum_mul_strictMono hs
      have hlt1 : scale * lubySum k < scale * lubySum k' := by omega
      have hlt2 : scale * lubySum k' < scale * lubySum (k + 1) := by omega
      have hik : k < k' := hmono.lt_iff_lt.mp hlt1
      have hik2 : k' < k + 1 := hmono.lt_iff_lt.mp hlt2
      omega

/-- Witness for C6: with scale 1, the very first failure triggers restart 1
(cumulative count 1 = 1 · Luby(1)). -/
theorem lubyRestart_schedule_witness : lubyRestartTriggers 1 1 = true :=
  (lubyRestart_schedule 1 1 (by decide) (by decide)).mpr ⟨1, by decide, by decide⟩

/-! ### C2: RegularLimit.Check -/

theorem regularLimit_checkTime_fst (l : RegularLimit) (s : SolverCounters) :
    (l.checkTime s).1 = true ↔
      ((l.wall_time ≠ kint64max ∧ l.next_check ≤ l.check_count + 1) ∧
        l.wall_time < s.wall_time - l.wall_time_offset) := by
  simp only [RegularLimit.checkTime]
  split_ifs with h1 h2 <;> simp_all

/-- C2 counterexample: with budgets (time = kint64max, branches = 100,
failures = 100, solutions = 1), offsets 0 and counters showing exactly one
solution and nothing else, `Check()` returns true although none of the four
counters strictly exceeds its budget: the solutions test of the source is
`>=`, not `>`. -/
theorem regularLimit_check_counterexample :
    ((⟨kint64max, 0, 0, 0, false, 100, 0, 100, 0, 1, 0⟩ : RegularLimit).check
        ⟨0, 0, 0, 1⟩).1 = true ∧
    ¬ ((0 : Int) - 0 > 100 ∨ (0 : Int) - 0 > 100 ∨ (0 : Int) - 0 > kint64max ∨
       (1 : Int) - 0 > 1) := by decide

/-- C2 (amended): `Check()` returns true iff branches since the `EnterSearch`
offset strictly exceed the branch budget, or failures strictly exceed the
failure budget, or the time poll is due (finite time budget and
`next_check ≤ check_count + 1`) and the elapsed time strictly exceeds the
time budget, or solutions since the offset have reached (at least) the
solution budget. -/
theorem regularLimit_check_amended (l : RegularLimit) (s : SolverCounters) :
    (l.check s).1 = true ↔
      (l.branches < s.branches - l.branches_offset ∨
       l.failures < s.failures - l.failures_offset ∨
       ((l.wall_time ≠ kint64max ∧ l.next_check ≤ l.check_count + 1) ∧
         l.wall_time < s.wall_time - l.wall_time_offset) ∨
       l.solutions ≤ s.solutions - l.solutions_offset) := by
  have hct := regularLimit_checkTime_fst l s
  simp only [RegularLimit.check]
  split_ifs with h1 h2 h3
  · simp [h1]
  · simp [h2]
  · rw [hct] at h3
    simp [h3]
  · rw [hct] at h3
    simp only [decide_eq_true_eq]
    constructor
    · intro h
      exact Or.inr (Or.inr (Or.inr h))
    · intro h
      rcases h with h | h | h | h
      · exact absurd h h1
      · exact absurd h h2
      · exact absurd h h3
      · exact h

/-! ### C3 and C10: OptimizeVar -/

/-- C3: `EnterSearch` resets `best_` to the worst side of the direction
(kint64min when maximizing, kint64max when minimizing), and both
`RefuteDecision` and `RestartSearch` post, via `ApplyBound`, the bound
`objective ≥ best + step` (maximize) or `objective ≤ best - step` (minimize),
leaving the monitor state unchanged. -/
theorem optimizeVar_bounding (o : OptimizeVar) :
    o.enterSearch.best = (if o.maximize = true then kint64min else kint64max) ∧
    o.refuteDecision =
      (o, [if o.maximize = true then PostedBound.setMin (o.best + o.step)
           else PostedBound.setMax (o.best - o.step)]) ∧
    o.restartSearch =
      (o, [if o.maximize = true then PostedBound.setMin (o.best + o.step)
           else PostedBound.setMax (o.best - o.step)]) := by
  refine ⟨rfl, ?_, ?_⟩ <;>
    cases h : o.maximize <;>
      simp [OptimizeVar.refuteDecision, OptimizeVar.restartSearch,
        OptimizeVar.applyBound, h]

/-- C10: `OptimizeVar::AcceptSolution` votes true iff the objective value
strictly improves `best_` (greater when maximizing, smaller when minimizing),
and under the AND fold of the driver broadcast a non-improving solution is
vetoed whatever the other monitors vote. -/
theorem optimizeVar_acceptSolution_spec :
    (∀ (o : OptimizeVar) (val : Int),
      o.acceptSolution val = true ↔
        (if o.maximize = true then o.best < val else val < o.best)) ∧
    (∀ (o : OptimizeVar) (val : Int) (votes : List Bool),
      ¬ (if o.maximize = true then o.best < val else val < o.best) →
        acceptSolutionFold (votes ++ [o.acceptSolution val]) = false) := by
  constructor
  · intro o val
    cases h : o.maximize <;> simp [OptimizeVar.acceptSolution, h]
  · intro o val votes hno
    have h1 : o.acceptSolution val = false := by
      cases h : o.maximize <;> simp_all [OptimizeVar.acceptSolution]
    simp [acceptSolutionFold, h1]

/-- Witness for C10: with a maximizing optimizer at best 5, value 3 is vetoed
through the fold even when every other vote is true, and value 6 is accepted. -/
theorem optimizeVar_acceptSolution_witness :
    acceptSolutionFold ([true] ++ [(⟨true, 1, 5⟩ : OptimizeVar).acceptSolution 3]) = false ∧
    (⟨true, 1, 5⟩ : OptimizeVar).acceptSolution 6 = true :=
  ⟨optimizeVar_acceptSolution_spec.2 ⟨true, 1, 5⟩ 3 [true] (by decide),
   (optimizeVar_acceptSolution_spec.1 ⟨true, 1, 5⟩ 6).mpr (by decide)⟩

/-! ### C9: solution collectors -/

/-- C9: `EnterSearch` of every collector variant discards all stored
solutions, recycled slots and per-solution statistics (so `solution_count()`
is 0 immediately afterwards and later accessors only see the current search);
`BestValueSolutionCollector` additionally resets its incumbent to the worst
side, and `FirstSolutionCollector` re-arms its one-shot flag, so that after
`EnterSearch` the next `AtSolution` captures exactly one solution and further
ones are ignored. -/
theorem solutionCollector_enterSearch_spec :
    (∀ c : SolutionCollector,
      c.enterSearch.solution_count = 0 ∧ c.enterSearch.times = [] ∧
      c.enterSearch.branches = [] ∧ c.enterSearch.failures = [] ∧
      c.enterSearch.objective_values = [] ∧ c.enterSearch.recycle_solutions = []) ∧
    (∀ b : BestValueSolutionCollector,
      b.enterSearch.base.solution_count = 0 ∧
      b.enterSearch.best = (if b.maximize = true then kint64min else kint64max)) ∧
    (∀ f : FirstSolutionCollector, f.enterSearch.done = false) ∧
    (∀ (f : FirstSolutionCollector) (snap : AssignmentSnap) (objVal wt br fl : Int),
      (f.enterSearch.atSolution snap objVal wt br fl).2.base.solution_count = 1 ∧
      (f.enterSearch.atSolution snap objVal wt br fl).2.done = true ∧
      (∀ (s2 : AssignmentSnap) (o2 w2 b2 f2 : Int),
        ((f.enterSearch.atSolution snap objVal wt br fl).2.atSolution
            s2 o2 w2 b2 f2).2.base.solution_count = 1)) := by
  refine ⟨?_, ?_, ?_, ?_⟩
  · intro c
    simp [SolutionCollector.enterSearch, SolutionCollector.solution_count]
  · intro b
    simp [BestValueSolutionCollector.enterSearch, SolutionCollector.enterSearch,
      SolutionCollector.solution_count]
  · intro f
    simp [FirstSolutionCollector.enterSearch]
  · intro f snap objVal wt br fl
    by_cases hp : f.base.prototype <;>
      simp [FirstSolutionCollector.enterSearch, FirstSolutionCollector.atSolution,
        SolutionCollector.enterSearch, SolutionCollector.pushSolution,
        SolutionCollector.solution_count, hp]

/-! ### C7: SimulatedAnnealing iteration counting -/

theorem saRun_iteration_pos (es : List SAEvent) :
    ∀ s : SimulatedAnnealing, 0 < s.iteration →
      (saRun s es).iteration = s.iteration + es.length := by
  induction es with
  | nil => intro s h; simp [saRun]
  | cons e rest ih =>
      intro s h
      cases e
      · show (saRun s.localOptimum.2 rest).iteration = _
        rw [ih _ (by simp [SimulatedAnnealing.localOptimum]; omega)]
        simp [SimulatedAnnealing.localOptimum]
        omega
      · show (saRun s.acceptNeighbor rest).iteration = _
        rw [ih _ (by simp [SimulatedAnnealing.acceptNeighbor, h]; omega)]
        simp [SimulatedAnnealing.acceptNeighbor, h]
        omega

theorem saRun_iteration_start (es : List SAEvent) :
    ∀ s : SimulatedAnnealing, s.iteration = 0 →
      (saRun s es).iteration = (saSpecIteration es : Int) := by
  induction es with
  | nil => intro s h; simpa [saRun, saSpecIteration] using h
  | cons e rest ih =>
      intro s h
      cases e
      · show (saRun s.localOptimum.2 rest).iteration = _
        rw [saRun_iteration_pos rest _ (by simp [SimulatedAnnealing.localOptimum, h])]
        simp [SimulatedAnnealing.localOptimum, h, saSpecIteration]
      · show (saRun s.acceptNeighbor rest).iteration = _
        have hne : s.acceptNeighbor = s := by
          simp [SimulatedAnnealing.acceptNeighbor, h]
        rw [hne, ih s h]
        simp [saSpecIteration]

/-- C7 counterexample: starting from the constructor state, the trace
[LocalOptimum, AcceptNeighbor] contains exactly one LocalOptimum event, yet
the iteration counter ends at 2, not 1: `AcceptNeighbor` also increments the
counter once it is nonzero, so the counter is not the number of LocalOptimum
events. -/
theorem simulatedAnnealing_counterexample :
    (saRun (SimulatedAnnealing.init false 1 50)
        [SAEvent.localOptimum, SAEvent.acceptNeighbor]).iteration = 2 ∧
    ([SAEvent.localOptimum, SAEvent.acceptNeighbor].count SAEvent.localOptimum) = 1 ∧
    (2 : Int) ≠ 1 := by
  refine ⟨?_, by decide, by decide⟩
  simp [saRun, SimulatedAnnealing.init, SimulatedAnnealing.localOptimum,
    SimulatedAnnealing.acceptNeighbor]

/-- C7 (amended): the iteration counter i becomes 1 at the first
`LocalOptimum` and afterwards increments on every `LocalOptimum` and also on
every `AcceptNeighbor` (so on any event trace it equals 0 before the first
`LocalOptimum` and `1 + (number of later events)` after it); every
`LocalOptimum` call resets `current_` to the worst side and returns true iff
the temperature `T0 / i` after the advance is positive, which for a state
reached from the constructor is equivalent to `T0 > 0`. -/
theorem simulatedAnnealing_amended :
    (∀ (m : Bool) (st T0 : Int) (es : List SAEvent),
      (saRun (SimulatedAnnealing.init m st T0) es).iteration =
        (saSpecIteration es : Int)) ∧
    (∀ s : SimulatedAnnealing,
      s.localOptimum.2.iteration = s.iteration + 1 ∧
      s.localOptimum.2.current = (if s.maximize = true then kint64min else kint64max) ∧
      (s.localOptimum.1 = true ↔ 0 < s.localOptimum.2.temperature)) ∧
    (∀ s : SimulatedAnnealing, 0 ≤ s.iteration →
      (s.localOptimum.1 = true ↔ 0 < s.temperature0)) ∧
    (∀ s : SimulatedAnnealing,
      s.acceptNeighbor.iteration =
        (if 0 < s.iteration then s.iteration + 1 else s.iteration)) := by
  refine ⟨?_, ?_, ?_, ?_⟩
  · intro m st T0 es
    exact saRun_iteration_start es _ rfl
  · intro s
    refine ⟨rfl, ?_, by simp [SimulatedAnnealing.localOptimum]⟩
    cases h : s.maximize <;> simp [SimulatedAnnealing.localOptimum, h]
  · intro s hs
    have h1 : (0 : Int) < s.iteration + 1 := by omega
    have hb : (0 : ℚ) < ((s.iteration + 1 : Int) : ℚ) := by exact_mod_cast h1
    simp only [SimulatedAnnealing.localOptimum, SimulatedAnnealing.temperature,
      decide_eq_true_eq]
    rw [if_pos h1]
    constructor
    · intro h
      rcases div_pos_iff.mp h with ⟨ha, _⟩ | ⟨_, hbneg⟩
      · exact_mod_cast ha
      · linarith
    · intro h
      exact div_pos (by exact_mod_cast h) hb
  · intro s
    by_cases h : 0 < s.iteration <;>
      simp [SimulatedAnnealing.acceptNeighbor, h]

/-- Witness for C7: from the constructor state with T0 = 7, the first
`LocalOptimum` returns true. -/
theorem simulatedAnnealing_amended_witness :
    (SimulatedAnnealing.init true 1 7).localOptimum.1 = true :=
  (simulatedAnnealing_amended.2.2.1 _ (by decide)).mpr (by decide)

/-! ### C1: GLS penalty increment at LocalOptimum -/

theorem glsBug_utilityList :
    glsUtilityList glsBugConfig glsBugPen =
      [((0, 5), 5 / 2), ((1, 5), 5 / 2)] := by
  simp [glsUtilityList, glsBugConfig, glsBugPen, List.range_succ]
  norm_num

theorem glsBug_sorted :
    sortDesc [((0, 5), 5 / 2), ((1, 5), 5 / 2)] =
      [((1, 5), 5 / 2), ((0, 5), 5 / 2)] := by
  norm_num [sortDesc, insertDesc]

theorem glsBug_incremented :
    glsIncrementedArcs (glsUtilityList glsBugConfig glsBugPen) = [(1, 5)] := by
  simp only [glsIncrementedArcs]
  rw [glsBug_utilityList, glsBug_sorted]
  have ht : ratTrunc (5 / 2 : ℚ) = 2 := by norm_num [ratTrunc]
  simp [ht]
  norm_num

/-- C1: evaluation of `GuidedLocalSearch::LocalOptimum` at a failing input.
With two tracked variables both assigned 5 and assignment cost 5, both arcs
carry penalty 1, so both utilities are 5 / 2 and both attain the maximum; the
claim requires both penalties to become 2.  The source truncates the maximal
utility to the int64 2 before the tie comparison (2 ≠ 5 / 2), so only the
first sorted arc is incremented: arc (1, 5) reaches penalty 2 while the
equally-maximal arc (0, 5) stays at 1. -/
theorem gls_localOptimum_truncation_bug :
    (∀ p ∈ glsUtilityList glsBugConfig glsBugPen, p.2 = 5 / 2) ∧
    glsLocalOptimum glsBugConfig glsBugPen (1, 5) = 2 ∧
    glsLocalOptimum glsBugConfig glsBugPen (0, 5) = 1 := by
  refine ⟨?_, ?_, ?_⟩
  · rw [glsBug_utilityList]
    simp
  · simp only [glsLocalOptimum]
    rw [glsBug_incremented]
    decide
  · simp only [glsLocalOptimum]
    rw [glsBug_incremented]
    decide

/-! ### C4: TabuSearch.ApplyDecision -/

theorem tabuHalf_applyDecision_eval :
    tabuHalfState.applyDecision false =
      [TabuPosted.aspirationGe 11, TabuPosted.keepLit 0 7,
       TabuPosted.tabuThreshold 1 0, TabuPosted.orAspirationTabu,
       TabuPosted.descentGe 11, TabuPosted.notEqualLast 10] := by
  have ht : ratTrunc ((1 : ℚ) * (1 / 2)) = 0 := by norm_num [ratTrunc]
  have ht2 : ratTrunc ((1 : ℚ) / 2) = 0 := by norm_num [ratTrunc]
  have ht3 : ratTrunc ((2 : ℚ)⁻¹) = 0 := by norm_num [ratTrunc]
  simp [TabuSearch.applyDecision, tabuHalfState, ht, ht2, ht3]

/-- C4 counterexample: with one keep entry and tabu_factor 1 / 2, the posted
softened constraint carries threshold 0 (the double product 1 · 0.5 is
implicitly converted to int64, truncating toward zero), while the claimed
ceiling of 1 · 0.5 is 1; no constraint with the ceiling threshold is posted. -/
theorem tabuSearch_threshold_counterexample :
    TabuPosted.tabuThreshold 1 0 ∈ tabuHalfState.applyDecision false ∧
    TabuPosted.tabuThreshold 1 (Int.ceil ((1 : ℚ) * (1 / 2))) ∉
      tabuHalfState.applyDecision false ∧
    Int.ceil ((1 : ℚ) * (1 / 2)) = 1 := by
  have hceil : Int.ceil ((1 : ℚ) * (1 / 2)) = 1 := by
    rw [Int.ceil_eq_iff]
    norm_num
  rw [tabuHalf_applyDecision_eval, hceil]
  refine ⟨by decide, by decide, rfl⟩

/-- C4 (amended): on a non-balancing decision with at least one tabu entry,
`ApplyDecision` posts exactly: the aspiration literal (`objective ≥ best +
step` maximizing, `≤ best - step` minimizing), one literal per keep entry
(var = value) and per forbid entry (var ≠ value), the softened constraint
requiring the satisfied literals to number at least the truncation toward
zero (the floor, for a factor in [0, 1]) of (#entries · tabu_factor) — not
the ceiling — unless the aspiration holds, the strict descent bound from
`current_`, and the exclusion of the last objective value. -/
theorem tabuSearch_applyDecision_amended (t : TabuSearch)
    (h : 1 ≤ t.keep_tabu_list.length + t.forbid_tabu_list.length) :
    t.applyDecision false =
      [if t.maximize = true then TabuPosted.aspirationGe (t.best + t.step)
       else TabuPosted.aspirationLe (t.best - t.step)] ++
      (t.keep_tabu_list.map fun e => TabuPosted.keepLit e.varIdx e.value) ++
      (t.forbid_tabu_list.map fun e => TabuPosted.forbidLit e.varIdx e.value) ++
      [TabuPosted.tabuThreshold
         (t.keep_tabu_list.length + t.forbid_tabu_list.length)
         (ratTrunc (((t.keep_tabu_list.length + t.forbid_tabu_list.length : Nat) : ℚ)
            * t.tabu_factor)),
       TabuPosted.orAspirationTabu] ++
      [if t.maximize = true then TabuPosted.descentGe (t.current + t.step)
       else TabuPosted.descentLe (t.current - t.step),
       TabuPosted.notEqualLast t.last] := by
  have hn : 0 < t.keep_tabu_list.length + t.forbid_tabu_list.length := by omega
  simp [TabuSearch.applyDecision, hn]

/-- Witness for C4 (amended): full evaluation at the concrete state with one
keep entry and factor 1 / 2; the threshold posted is trunc(1 · 1/2) = 0. -/
theorem tabuSearch_applyDecision_amended_witness :
    tabuHalfState.applyDecision false =
      [TabuPosted.aspirationGe 11, TabuPosted.keepLit 0 7,
       TabuPosted.tabuThreshold 1 0, TabuPosted.orAspirationTabu,
       TabuPosted.descentGe 11, TabuPosted.notEqualLast 10] := by
  rw [tabuSearch_applyDecision_amended tabuHalfState (by decide)]
  have ht : ratTrunc ((1 : ℚ) * (1 / 2)) = 0 := by norm_num [ratTrunc]
  have ht2 : ratTrunc ((1 : ℚ) / 2) = 0 := by norm_num [ratTrunc]
  have ht3 : ratTrunc ((2 : ℚ)⁻¹) = 0 := by norm_num [ratTrunc]
  simp [tabuHalfState, ht, ht2, ht3]

/-! ### C8: RandomValueSelector -/

/-- C8: evaluation of `RandomValueSelector::Select` at a failing input.  The
domain {10, 20} has span 11 and size 2, so the selector takes the sparse
counting branch; the rank draw 0 is a legal `Rand64(size)` outcome
(0 ≤ 0 < 2); the ascending loop decrements the rank at each contained value
before comparing it with 0, so a rank of 0 never matches, the loop falls
through to `return 0LL`, and the returned value 0 is not in the domain. -/
theorem randomValueSelector_rank0_bug :
    randomValueIsDense [10, 20] = false ∧
    (0 : Int) ≤ 0 ∧ (0 : Int) < (([10, 20] : List Int).length : Int) ∧
    randomValueSparse [10, 20] 0 = 0 ∧
    (0 : Int) ∉ ([10, 20] : List Int) := by decide
